import Mathlib

set_option maxHeartbeats 1000000

/-!
Verification development for the clangalyzer trace-analysis tool.

The Python sources are shallowly embedded: JSON values become the inductive
`JVal`, Python dictionaries become association lists (with unique keys, as
`json.loads` guarantees), Python `int64`/`float` arithmetic becomes `Int`/`ℚ`
arithmetic, and a call to `Logger.log_error_and_exit` (which terminates the
run with exit status 1) is modelled as `Except.error ()`.
-/

/-! ## Data model and operations (shallow embedding of the source) -/

/-- JSON values, as produced by `json.loads`, restricted to the shapes the
analyzer's inputs use (no floating-point numbers are modelled; the trace files
carry integer microsecond counts). -/
inductive JVal : Type where
  | jnull : JVal
  | jbool : Bool → JVal
  | jint : Int → JVal
  | jstr : String → JVal
  | jarr : List JVal → JVal
  | jobj : List (String × JVal) → JVal

/-- Association-list read mirroring a Python dict access `d[k]` (keys are unique
in dictionaries decoded from JSON, so first-match lookup is faithful). -/
def lookupKey (d : List (String × JVal)) (k : String) : Option JVal :=
  match d with
  | [] => none
  | (k', v) :: rest => if k' = k then some v else lookupKey rest k

/-- Python membership test `k in d` on a dictionary. -/
def hasKey (d : List (String × JVal)) (k : String) : Bool :=
  match d with
  | [] => false
  | (k', _) :: rest => k' = k || hasKey rest k

/-- Python assignment `d[k] = v`: replaces the binding when the key is present,
otherwise appends the new binding at the end. -/
def dictSet (d : List (String × JVal)) (k : String) (v : JVal) : List (String × JVal) :=
  match d with
  | [] => [(k, v)]
  | (k', v') :: rest => if k' = k then (k', v) :: rest else (k', v') :: dictSet rest k v

/-- Model of Python `int(s)` on a string: optional surrounding whitespace, an
optional sign, then a nonempty run of decimal digits.  (CPython's underscore
separators and non-decimal bases never occur in this repository's inputs.) -/
def pyIntOfChars (l : List Char) : Option Int :=
  let ws : Char → Bool := fun c => c = ' ' || c = '\t' || c = '\n' || c = '\r'
  let l := l.dropWhile ws
  let l := (l.reverse.dropWhile ws).reverse
  let sgn : Bool × List Char :=
    match l with
    | '-' :: rest => (true, rest)
    | '+' :: rest => (false, rest)
    | _ => (false, l)
  if sgn.2 = [] then none
  else if sgn.2.all (fun c => c.isDigit) then
    let n : Nat := sgn.2.foldl (fun acc c => acc * 10 + (c.toNat - '0'.toNat)) 0
    some (if sgn.1 then -(n : Int) else (n : Int))
  else none

/-- Model of Python `int(x)` on the JSON values the analyzer can meet: integers
pass through, booleans coerce to 0/1, numeric strings are parsed, and every
other value raises (`none`, which the callers turn into a fatal exit). -/
def pyToInt : JVal → Option Int
  | .jint n => some n
  | .jbool b => some (if b then 1 else 0)
  | .jstr s => pyIntOfChars s.data
  | _ => none

/-- Python `int(x)` on an exact rational: truncation toward zero. -/
def pyTrunc (q : ℚ) : Int := q.num.tdiv q.den

/-- Mirrors `utils.truncation.truncate_to_place`: multiply by `10 ^ num`,
truncate with `int`, then divide back down (exact rationals stand in for the
Python floats). -/
def truncate_to_place (value : ℚ) (num : Nat) : ℚ :=
  let v := value * (10 : ℚ) ^ num
  let t : ℚ := (pyTrunc v : ℚ)
  if num = 2 then t / 100
  else if num = 4 then t / 10000
  else t / (10 : ℚ) ^ num

/-- Shape of the delta column rendered by `Comparison.log_summary` for one
metric key: `na` is the literal `"n/a"`, `infty b` the `"∞%"` string (with a
leading `'+'` when `b` is true), `wholePct b n` the `'%d%%'` rendering of the
truncated percentage, and `twoDecPct b q` the `'%0.2f%%'` rendering of the
2-decimal-truncated percentage. -/
inductive DeltaDisplay : Type where
  | na : DeltaDisplay
  | infty : Bool → DeltaDisplay
  | wholePct : Bool → Int → DeltaDisplay
  | twoDecPct : Bool → ℚ → DeltaDisplay
  deriving DecidableEq

/-- Mirrors the delta-column computation of `Comparison.log_summary`
(`src/comparison.py` lines 183-208) for one metric key: `lastValue`/`value`
are the prior and current numbers when the key is present on that side. -/
def differenceDisplay (lastValue value : Option ℚ) : DeltaDisplay :=
  match lastValue, value with
  | some lv, some v =>
    if lv = 0 ∧ v = 0 then .na
    else
      let plus : Bool := decide (v < lv)
      if 0 < lv then
        let percentage := ((lv - v) / lv) * 100
        if 100 ≤ percentage ∨ percentage ≤ -100 then .wholePct plus (pyTrunc percentage)
        else .twoDecPct plus (truncate_to_place percentage 2)
      else .infty plus
  | _, _ => .na

/-- Reserved key under which `Comparison` stores its run tag. -/
def comparisonNameKey : String := "*** Name ***"

/-- Underlying dictionary of a `Comparison` store. -/
abbrev ComparisonStore := List (String × JVal)

/-- Mirrors `Comparison.__init__` without a filepath: an empty dictionary that
`_set_name` seeds with the reserved name key (a missing name becomes `""`). -/
def Comparison.init (name : Option String) : ComparisonStore :=
  [(comparisonNameKey, .jstr (name.getD ""))]

/-- Mirrors `Comparison.add_summary`: calling `log_error_and_exit` when `name`
is already a key of the dictionary is modelled as `Except.error ()`; otherwise
the binding is added. -/
def Comparison.add_summary (store : ComparisonStore) (name : String) (d : JVal) :
    Except Unit ComparisonStore :=
  if hasKey store name then .error () else .ok (store ++ [(name, d)])

/-- One trace event as shredded by `TimingDataItem.parse`: the original JSON
dictionary `dict` plus the integer fields the tool reads out of it and later
rewrites during a merge (`time`, `pid`, `tid`), the optional `duration`
(defaulting to 0), and the provenance strings the constructor receives. -/
structure TimingDataItem where
  filename : String
  target : String
  arch : String
  platform : String
  dict : List (String × JVal)
  time : Int
  pid : Int
  tid : Int
  duration : Int

/-- Mirrors `TimingDataItem.get_name`: the `"name"` entry of the stored
dictionary, `""` when absent.  (A present non-string name would crash every
Python caller of `get_name`; that corner is read as `""` here and never
exercised by a theorem.) -/
def TimingDataItem.getName (it : TimingDataItem) : String :=
  match lookupKey it.dict "name" with
  | some (.jstr s) => s
  | _ => ""

/-- Mirrors `TimingDataItem.is_total_execute_compiler`. -/
def TimingDataItem.is_total_execute_compiler (it : TimingDataItem) : Bool :=
  it.getName = "Total ExecuteCompiler"

/-- Mirrors `TimingDataItem.is_execute_compiler`. -/
def TimingDataItem.is_execute_compiler (it : TimingDataItem) : Bool :=
  it.getName = "ExecuteCompiler"

/-- Mirrors `TimingDataItem.get_total_time`: the event's end time `ts + dur`. -/
def TimingDataItem.get_total_time (it : TimingDataItem) : Int :=
  it.time + it.duration

/-- Mirrors `TimingDataItem._read_int_from_dict`: a missing key or a value that
Python `int()` rejects calls `log_error_and_exit` (exit status 1), modelled as
`Except.error ()`. -/
def readIntFromDict (d : List (String × JVal)) (k : String) : Except Unit Int :=
  match lookupKey d k with
  | none => .error ()
  | some v =>
    match pyToInt v with
    | none => .error ()
    | some n => .ok n

/-- Mirrors `TimingDataItem.parse`: `ts`, `pid` and `tid` are read with
`_read_int_from_dict` (fatal when absent or not integer-convertible); `dur` is
read the same way only when present and otherwise keeps the constructor's
default 0. -/
def TimingDataItem.parse (filename target arch platform : String)
    (item : List (String × JVal)) : Except Unit TimingDataItem := do
  let t ← readIntFromDict item "ts"
  let p ← readIntFromDict item "pid"
  let ti ← readIntFromDict item "tid"
  let d ← if hasKey item "dur" then readIntFromDict item "dur" else Except.ok 0
  Except.ok { filename := filename, target := target, arch := arch, platform := platform,
              dict := item, time := t, pid := p, tid := ti, duration := d }

/-- A `TimingData` instance: the path of the raw timing file, the provenance
triple, the cumulative time offset (`_time_offset`, 0 at construction) and the
ordered list of parsed items. -/
structure TimingData where
  path : String
  target : String
  platform : String
  arch : String
  timeOffset : Int
  items : List TimingDataItem

/-- Mirrors `TimingData.__init__`: offset 0, no items. -/
def TimingData.mk0 (path target platform arch : String) : TimingData :=
  { path := path, target := target, platform := platform, arch := arch,
    timeOffset := 0, items := [] }

/-- The JSON key `beginningOfTime` (`_key_beginning_of_time`). -/
def keyBeginningOfTime : String := "beginningOfTime"

/-- The JSON key `traceEvents` (`_key_trace_events`). -/
def keyTraceEvents : String := "traceEvents"

/-- Input to `TimingData.parse`, abstracting the file read that precedes the
schema checks: the bytes failed to decode as UTF-8, the text failed
`json.loads`, or loading produced a JSON object with the given (distinct)
keys.  (A non-object top level is outside the modelled domain.) -/
inductive ParseInput : Type where
  | undecodable : ParseInput
  | badJson : ParseInput
  | jsonObj : List (String × JVal) → ParseInput

/-- Event-list traversal of `TimingData.parse`: each event dictionary is fed to
`TimingDataItem.parse` and the successes are collected in order (the Python
method only appends when `tdi.parse` returns `True`, and `tdi.parse` otherwise
exits the run).  A non-dictionary event makes the Python field reads raise,
which also aborts the run with a non-zero status, hence `.error ()`. -/
def parseItems (filename target arch platform : String) :
    List JVal → Except Unit (List TimingDataItem)
  | [] => .ok []
  | .jobj d :: rest => do
    let it ← TimingDataItem.parse filename target arch platform d
    let more ← parseItems filename target arch platform rest
    Except.ok (it :: more)
  | _ :: _ => .error ()

/-- Mirrors `TimingData.parse`: `.ok none` is the skip-with-warning failure
return (`return False`), `.ok (some items)` the success return with the events
parsed into `self._items`, and `.error ()` a fatal abort raised while parsing
an event.  The schema checks run in source order: the `beginningOfTime` key,
then the `traceEvents` key, then the exactly-two-keys check.  A `traceEvents`
value that is not an array makes the Python loop iterate a non-list, which for
the inputs considered here aborts the run; theorems additionally restrict to
array-valued `traceEvents`. -/
def TimingData.parseModel (filename target arch platform : String)
    (input : ParseInput) : Except Unit (Option (List TimingDataItem)) :=
  match input with
  | .undecodable => .ok none
  | .badJson => .ok none
  | .jsonObj data =>
    if hasKey data keyBeginningOfTime = false then .ok none
    else if hasKey data keyTraceEvents = false then .ok none
    else if data.length ≠ 2 then .ok none
    else
      match lookupKey data keyTraceEvents with
      | some (.jarr evs) => (parseItems filename target arch platform evs).map some
      | _ => .error ()

/-- Loop state of `TimingData.join`: the `pid`/`tid` being unified onto
(`None` until a first event fixes them), the `last_time` scratch variable, and
the list of events appended so far. -/
structure JoinState where
  pid : Option Int
  tid : Option Int
  lastTime : Int
  appended : List TimingDataItem

/-- The `for other_item in other_items` loop of `TimingData.join`, translated
statement by statement: `last_time` is taken from a `Total ExecuteCompiler`
sentinel before the shift, the timestamp is shifted by the accumulator's
offset, then `pid` and `tid` are either learnt (when still `None`) or forced
onto the event.  (The two Python `assert`s restate the branch conditions they
sit under and cannot fire.) -/
def joinLoop (offset : Int) : JoinState → List TimingDataItem → JoinState
  | st, [] => st
  | st, it :: rest =>
    let lastTime := if it.is_total_execute_compiler then it.get_total_time else st.lastTime
    let it1 := { it with time := it.time + offset }
    let pidStep : Int × TimingDataItem :=
      match st.pid with
      | none => (it1.pid, it1)
      | some p => (p, { it1 with pid := p })
    let tidStep : Int × TimingDataItem :=
      match st.tid with
      | none => (pidStep.2.tid, pidStep.2)
      | some t => (t, { pidStep.2 with tid := t })
    joinLoop offset { pid := some pidStep.1, tid := some tidStep.1, lastTime := lastTime,
                      appended := st.appended ++ [tidStep.2] } rest

/-- Mirrors `TimingData.join`: the unification ids are seeded from the
accumulator's first item when it has one, the other file's items are folded
through `joinLoop` with the accumulator's current `_time_offset`, and the
offset then advances by the loop's final `last_time`. -/
def TimingData.join (td other : TimingData) : TimingData :=
  let st0 : JoinState :=
    { pid := td.items.head?.map (fun h => h.pid),
      tid := td.items.head?.map (fun h => h.tid),
      lastTime := 0, appended := [] }
  let st := joinLoop td.timeOffset st0 other.items
  { td with items := td.items ++ st.appended, timeOffset := td.timeOffset + st.lastTime }

/-- Run-level outcome of `TimingData.join`.  The method's body contains no
`log_error_and_exit` call and no raising operation (its two `assert`s restate
the branch conditions they sit under), so folding a source into an accumulator
always completes normally — it never aborts the run. -/
def TimingData.joinRun (td other : TimingData) : Except Unit TimingData :=
  .ok (td.join other)

/-- The offset a source contributes to a merge: scanning its events in order,
`last_time` ends as `ts + dur` of the last `Total ExecuteCompiler` sentinel,
and 0 when there is none. -/
def sentinelContribution (l : List TimingDataItem) : Int :=
  match (l.filter (fun it => it.is_total_execute_compiler)).getLast? with
  | some it => it.get_total_time
  | none => 0

/-- The `for item in self._items` loop of `TimingData.calculate_total_time`:
on a `Total ExecuteCompiler` sentinel, an already non-zero offset is fatal
(`found multiple execute compiler items`), otherwise the offset becomes the
sentinel's `get_total_time()`. -/
def calcLoop : Int → List TimingDataItem → Except Unit Int
  | offset, [] => .ok offset
  | offset, it :: rest =>
    if it.is_total_execute_compiler then
      if offset ≠ 0 then .error ()
      else calcLoop it.get_total_time rest
    else calcLoop offset rest

/-- Mirrors `TimingData.calculate_total_time`: the scan only runs while the
stored offset is 0, and the (possibly updated) offset is returned. -/
def TimingData.calculate_total_time (td : TimingData) : Except Unit Int :=
  if td.timeOffset = 0 then calcLoop 0 td.items else .ok td.timeOffset

/-- Mirrors `TimingDataItem.json_dict`: a copy of the original dictionary in
which an `ExecuteCompiler` event's name gains the ` - filename` suffix, and the
`ts`/`pid`/`tid` entries are overwritten with the item's current fields. -/
def TimingDataItem.jsonDict (it : TimingDataItem) : List (String × JVal) :=
  let d := it.dict
  let d := if it.is_execute_compiler
    then dictSet d "name" (.jstr (it.getName ++ " - " ++ it.filename))
    else d
  let d := dictSet d "ts" (.jint it.time)
  let d := dictSet d "pid" (.jint it.pid)
  dictSet d "tid" (.jint it.tid)

/-- Mirrors the object graph built by `TimingData.write` and dumped as JSON:
a single-key object `{"traceEvents": [...json_dict...]}` — the
`beginningOfTime` key is not emitted. -/
def TimingData.writeFields (td : TimingData) : List (String × JVal) :=
  [(keyTraceEvents, .jarr (td.items.map (fun it => .jobj it.jsonDict)))]

/-- Character-level split of `posixpath.split` before the trailing-slash strip:
the head keeps everything up to and including the last `'/'`, the tail is what
follows it (the whole path when there is no slash). -/
def rsplitSlash (l : List Char) : List Char × List Char :=
  ((l.reverse.dropWhile (fun c => c ≠ '/')).reverse,
   (l.reverse.takeWhile (fun c => c ≠ '/')).reverse)

/-- The trailing-slash strip of `posixpath.split`: applied when the head is
nonempty and not made of slashes only. -/
def rstripSlash (l : List Char) : List Char :=
  if l.any (fun c => c ≠ '/') then (l.reverse.dropWhile (fun c => c = '/')).reverse else l

/-- Model of `os.path.split` on POSIX paths, over the path's characters. -/
def posixSplit (l : List Char) : List Char × List Char :=
  let p := rsplitSlash l
  (rstripSlash p.1, p.2)

/-- The `.build` suffix a target directory must carry. -/
def buildSuffix : List Char := ".build".data

/-- The shared-precompiled-header folder name. -/
def sphFolder : List Char := "SharedPrecompiledHeaders".data

/-- Mirrors `TimingData.target_and_platform_and_arch_from_path`: pure
path-string logic, no I/O.  The filename is dropped, the parent names the
architecture, the grandparent is ignored, and the great-grandparent must
either end in `.build` (stripped to give the target, whose own parent names
the platform) or equal `SharedPrecompiledHeaders` (with `"-"` for platform and
architecture); any other shape yields `none`. -/
def target_and_platform_and_arch_from_path (path : List Char) :
    Option (List Char × List Char × List Char) :=
  let s0 := posixSplit path
  let s1 := posixSplit s0.1
  let arch := s1.2
  let s2 := posixSplit s1.1
  let s3 := posixSplit s2.1
  let target := s3.2
  if buildSuffix.isSuffixOf target then
    some (target.take (target.length - buildSuffix.length), (posixSplit s3.1).2, arch)
  else if target = sphFolder then
    some (target, "-".data, "-".data)
  else
    none

/-- Dictionary of a `Total ExecuteCompiler` sentinel with `ts = 10`, `dur = 100`. -/
def sentinelDictA : List (String × JVal) :=
  [("name", .jstr "Total ExecuteCompiler"), ("ts", .jint 10), ("pid", .jint 1),
   ("tid", .jint 2), ("dur", .jint 100)]

/-- A parsed `Total ExecuteCompiler` sentinel event, `ts = 10`, `dur = 100`. -/
def sentinelItemA : TimingDataItem := ⟨"a.json", "T", "x", "P", sentinelDictA, 10, 1, 2, 100⟩

/-- Dictionary of a second sentinel with `ts = 0`, `dur = 50`. -/
def sentinelDictA2 : List (String × JVal) :=
  [("name", .jstr "Total ExecuteCompiler"), ("ts", .jint 0), ("pid", .jint 1),
   ("tid", .jint 2), ("dur", .jint 50)]

/-- A second parsed sentinel event, `ts = 0`, `dur = 50`. -/
def sentinelItemA2 : TimingDataItem := ⟨"a.json", "T", "x", "P", sentinelDictA2, 0, 1, 2, 50⟩

/-- Dictionary of an ordinary `Source` event with `ts = 5` and no `dur`. -/
def sourceDictB : List (String × JVal) :=
  [("name", .jstr "Source"), ("ts", .jint 5), ("pid", .jint 3), ("tid", .jint 4)]

/-- A parsed ordinary event of a second trace file, `ts = 5`. -/
def sourceItemB : TimingDataItem := ⟨"b.json", "T", "x", "P", sourceDictB, 5, 3, 4, 0⟩

/-- Trace file A: one sentinel whose duration is 100 (and timestamp 10). -/
def traceA : TimingData := ⟨"a.json", "T", "P", "x", 0, [sentinelItemA]⟩

/-- Trace file B: one ordinary event at timestamp 5. -/
def traceB : TimingData := ⟨"b.json", "T", "P", "x", 0, [sourceItemB]⟩

/-- A trace file containing two `Total ExecuteCompiler` sentinels. -/
def traceTwoSentinels : TimingData := ⟨"a.json", "T", "P", "x", 0, [sentinelItemA, sentinelItemA2]⟩

/-- The fresh merge accumulator `tool_serialize_project_trace.py` creates. -/
def emptyAcc : TimingData := TimingData.mk0 "serial_trace.json" "" "" ""

/-- Dictionary of an `ExecuteCompiler` event. -/
def ecDict : List (String × JVal) :=
  [("name", .jstr "ExecuteCompiler"), ("ts", .jint 5), ("pid", .jint 7),
   ("tid", .jint 9), ("dur", .jint 3)]

/-- A parsed `ExecuteCompiler` event. -/
def ecItem : TimingDataItem := ⟨"a.json", "T", "x", "P", ecDict, 5, 7, 9, 3⟩

/-- A trace file holding the `ExecuteCompiler` event. -/
def traceEC : TimingData := ⟨"a.json", "T", "P", "x", 0, [ecItem]⟩

/-- A field of an event dictionary is bad when it is absent or its value is not
integer-convertible by Python `int()`. -/
def badIntField (d : List (String × JVal)) (k : String) : Prop :=
  lookupKey d k = none ∨ ∃ v, lookupKey d k = some v ∧ pyToInt v = none

/-- The key strings of a JSON object. -/
def objKeys (d : List (String × JVal)) : List String := d.map (fun p => p.1)

/-- The claim's skip conditions for `TimingData.parse`: undecodable bytes,
malformed JSON, a missing required key, or a key beyond the two required
ones. -/
def skipCond : ParseInput → Prop
  | .undecodable => True
  | .badJson => True
  | .jsonObj data =>
    hasKey data keyBeginningOfTime = false ∨ hasKey data keyTraceEvents = false ∨
    ∃ k ∈ objKeys data, k ≠ keyBeginningOfTime ∧ k ≠ keyTraceEvents

/-- Key uniqueness of the decoded object, as guaranteed by `json.loads`. -/
def nodupKeys : ParseInput → Prop
  | .jsonObj data => (objKeys data).Nodup
  | _ => True

/-- Restriction of the modelled domain: when present, the `traceEvents` value
is an array (the Python loop would otherwise iterate an arbitrary object). -/
def wfTraceEvents : ParseInput → Prop
  | .jsonObj data => ∀ v, lookupKey data keyTraceEvents = some v → ∃ evs, v = JVal.jarr evs
  | _ => True

/-- The sum of the offsets a list of sources contributes to a merge. -/
def offsetSum (srcs : List TimingData) : Int :=
  (srcs.map (fun s => sentinelContribution s.items)).sum

/-- Timestamps of the merged timeline: each source's events shifted by the
running offset, sources in fold order. -/
def timesFlat (offset : Int) : List TimingData → List Int
  | [] => []
  | s :: ss =>
    s.items.map (fun it => it.time + offset)
      ++ timesFlat (offset + sentinelContribution s.items) ss

/-- All events of a list carry the pid and tid of its first event. -/
def unifiedIds : List TimingDataItem → Prop
  | [] => True
  | h :: t => ∀ it ∈ h :: t, it.pid = h.pid ∧ it.tid = h.tid

/-- The `(pid, tid)` pair of a list's first event, when there is one. -/
def headIds (l : List TimingDataItem) : Option (Int × Int) :=
  l.head?.map (fun h => (h.pid, h.tid))

/-! ## Theorems -/

/-- C9: `Comparison.add_summary` is fatal exactly when the tool-key already
exists in the store, and an insert under a fresh key always succeeds, appending
the binding — so each tool-key is inserted at most once per store. -/
theorem add_summary_exactly_once (store : ComparisonStore) (name : String) (d : JVal) :
    (Comparison.add_summary store name d = .error () ↔ hasKey store name = true)
    ∧ (hasKey store name = false →
        Comparison.add_summary store name d = .ok (store ++ [(name, d)])) := by
  constructor
  · constructor
    · intro h
      by_contra hk
      simp only [Bool.not_eq_true] at hk
      simp [Comparison.add_summary, hk] at h
    · intro h
      simp [Comparison.add_summary, h]
  · intro h
    simp [Comparison.add_summary, h]

/-- C9 witness: in a fresh store the first insert of the key `"Serial Times"`
succeeds and a second insert of the same key is fatal. -/
theorem add_summary_exactly_once_witness :
    Comparison.add_summary (Comparison.init (some "run")) "Serial Times" (.jobj [])
      = .ok (Comparison.init (some "run") ++ [("Serial Times", .jobj [])])
    ∧ Comparison.add_summary
        (Comparison.init (some "run") ++ [("Serial Times", .jobj [])]) "Serial Times" (.jobj [])
      = .error () := by
  constructor
  · exact (add_summary_exactly_once (Comparison.init (some "run")) "Serial Times" (.jobj [])).2
      (by decide)
  · exact (add_summary_exactly_once
      (Comparison.init (some "run") ++ [("Serial Times", .jobj [])]) "Serial Times"
      (.jobj [])).1.mpr (by decide)

/-- C10: the percentage-delta division in `Comparison.log_summary` is guarded by
`prior > 0` (so its divisor is never zero), and when the prior value is zero or
negative while the two values are not both zero, the delta column is the
infinity string, with a leading `'+'` exactly when the current value is smaller
than the prior. -/
theorem delta_division_guarded (lv v : ℚ) :
    (lv ≤ 0 → ¬(lv = 0 ∧ v = 0) →
        differenceDisplay (some lv) (some v) = .infty (decide (v < lv)))
    ∧ (∀ b n, differenceDisplay (some lv) (some v) = .wholePct b n → 0 < lv)
    ∧ (∀ b q, differenceDisplay (some lv) (some v) = .twoDecPct b q → 0 < lv) := by
  refine ⟨?_, ?_, ?_⟩
  · intro hle hnz
    have hlt : ¬ (0 < lv) := not_lt.mpr hle
    simp [differenceDisplay, hnz, hlt]
  · intro b n h
    by_contra hlt
    rcases em (lv = 0 ∧ v = 0) with hz | hz
    · simp [differenceDisplay, hz, hlt] at h
    · simp [differenceDisplay, hz, hlt] at h
  · intro b q h
    by_contra hlt
    rcases em (lv = 0 ∧ v = 0) with hz | hz
    · simp [differenceDisplay, hz, hlt] at h
    · simp [differenceDisplay, hz, hlt] at h

/-- C10 witness: prior 0 and current 5 renders the infinity string without a
leading plus, and prior -2 with current -4 renders it with a leading plus. -/
theorem delta_division_guarded_witness :
    differenceDisplay (some 0) (some 5) = .infty false
    ∧ differenceDisplay (some (-2)) (some (-4)) = .infty true := by
  constructor
  · have h := (delta_division_guarded 0 5).1 (by norm_num) (by norm_num)
    simpa using h
  · have h := (delta_division_guarded (-2) (-4)).1 (by norm_num) (by norm_num)
    simpa using h

/-- C4 counterexample: with prior 3 and current -2 the percentage is 500/3
(about 166.67, so at least 100 in magnitude); the code displays the
truncated-toward-zero value 166, which is not the nearest whole percent, since
167 is strictly nearer to 500/3 than 166 is. -/
theorem delta_whole_percent_not_rounded :
    differenceDisplay (some 3) (some (-2)) = .wholePct true 166
    ∧ |((3 : ℚ) - (-2)) / 3 * 100 - 166| > |((3 : ℚ) - (-2)) / 3 * 100 - 167| := by
  have hpct : ((3 : ℚ) - (-2)) / 3 * 100 = Rat.divInt 500 3 := by
    rw [Rat.divInt_eq_div]; norm_num
  constructor
  · simp only [differenceDisplay]
    rw [if_neg (show ¬((3 : ℚ) = 0 ∧ (-2 : ℚ) = 0) by norm_num), hpct,
      if_pos (show (0 : ℚ) < 3 by norm_num),
      if_pos (show (100 : ℚ) ≤ Rat.divInt 500 3 ∨ Rat.divInt 500 3 ≤ -100 by decide)]
    decide
  · rw [show ((3 : ℚ) - (-2)) / 3 * 100 - 166 = 2 / 3 by norm_num,
      show ((3 : ℚ) - (-2)) / 3 * 100 - 167 = -(1 / 3) by norm_num, abs_neg,
      abs_of_pos (show (0 : ℚ) < 2 / 3 by norm_num),
      abs_of_pos (show (0 : ℚ) < 1 / 3 by norm_num)]
    norm_num

/-- C4 (amended): when both values are present and the prior is strictly
positive, the delta is `((prior - current) / prior) * 100` percent, positive
with a leading `'+'` on a decrease; it is displayed with 2 decimal places
(truncated to that place) when its magnitude is below 100, and truncated toward
zero to a whole percent — not rounded to the nearest — when its magnitude is at
least 100. -/
theorem delta_formula_prior_positive (lv v : ℚ) (h : 0 < lv) :
    (differenceDisplay (some lv) (some v) =
      if 100 ≤ ((lv - v) / lv) * 100 ∨ ((lv - v) / lv) * 100 ≤ -100 then
        DeltaDisplay.wholePct (decide (v < lv)) (pyTrunc (((lv - v) / lv) * 100))
      else
        DeltaDisplay.twoDecPct (decide (v < lv)) (truncate_to_place (((lv - v) / lv) * 100) 2))
    ∧ (v < lv → 0 < ((lv - v) / lv) * 100) := by
  constructor
  · have hnz : ¬ (lv = 0 ∧ v = 0) := fun hc => absurd hc.1 (ne_of_gt h)
    simp [differenceDisplay, hnz, h]
  · intro hv
    have hpos : 0 < (lv - v) / lv := div_pos (by linarith) h
    linarith

/-- C4 witness: prior 100 and current 50 is a decrease, so the delta is the
positive percentage 50 displayed with two decimals and a leading plus. -/
theorem delta_formula_prior_positive_witness :
    differenceDisplay (some 100) (some 50) = DeltaDisplay.twoDecPct true 50 := by
  have h := (delta_formula_prior_positive 100 50 (by norm_num)).1
  rw [show ((100 : ℚ) - 50) / 100 * 100 = 50 by norm_num] at h
  rw [if_neg (by norm_num)] at h
  rw [h]
  have ht : truncate_to_place (50 : ℚ) 2 = 50 := by
    simp only [truncate_to_place]
    rw [show (50 : ℚ) * (10 : ℚ) ^ (2 : ℕ) = 5000 by norm_num]
    rw [show pyTrunc (5000 : ℚ) = 5000 by decide]
    norm_num
  rw [ht]
  norm_num

theorem readIntFromDict_error_iff (d : List (String × JVal)) (k : String) :
    readIntFromDict d k = .error () ↔ badIntField d k := by
  unfold readIntFromDict badIntField
  rcases h : lookupKey d k with _ | v
  · simp [h]
  · rcases hv : pyToInt v with _ | n
    · simp [h, hv]
    · simp [h, hv]

theorem readIntFromDict_ok_iff (d : List (String × JVal)) (k : String) (n : Int) :
    readIntFromDict d k = .ok n ↔ ∃ v, lookupKey d k = some v ∧ pyToInt v = some n := by
  unfold readIntFromDict
  rcases h : lookupKey d k with _ | v
  · simp [h]
  · rcases hv : pyToInt v with _ | m
    · simp [h, hv]
    · simp [h, hv]

/-- C8: for an event dictionary, a missing or non-integer-convertible `ts`,
`pid` or `tid` aborts the whole run (`log_error_and_exit`), a missing `dur` is
not an error and leaves the duration at its default 0, and a `ts` value
arriving as a numeric string is accepted by the field reader. -/
theorem event_required_fields (f t a p : String) (d : List (String × JVal)) :
    ((badIntField d "ts" ∨ badIntField d "pid" ∨ badIntField d "tid") →
      TimingDataItem.parse f t a p d = .error ())
    ∧ (hasKey d "dur" = false →
        ∀ n1 n2 n3 : Int, readIntFromDict d "ts" = .ok n1 →
          readIntFromDict d "pid" = .ok n2 → readIntFromDict d "tid" = .ok n3 →
          TimingDataItem.parse f t a p d = .ok ⟨f, t, a, p, d, n1, n2, n3, 0⟩)
    ∧ (∀ (s : String) (n : Int), lookupKey d "ts" = some (.jstr s) →
        pyIntOfChars s.data = some n → readIntFromDict d "ts" = .ok n) := by
  refine ⟨?_, ?_, ?_⟩
  · intro hbad
    rcases hts : readIntFromDict d "ts" with u | n1
    · cases u
      simp [TimingDataItem.parse, hts, Except.bind, bind, Except.instMonad]
    · rcases hpid : readIntFromDict d "pid" with u | n2
      · cases u
        simp [TimingDataItem.parse, hts, hpid, Except.bind, bind, Except.instMonad]
      · rcases htid : readIntFromDict d "tid" with u | n3
        · cases u
          simp [TimingDataItem.parse, hts, hpid, htid, Except.bind, bind, Except.instMonad]
        · exfalso
          rcases hbad with hb | hb | hb
          · rw [← readIntFromDict_error_iff] at hb
            rw [hts] at hb
            injection hb
          · rw [← readIntFromDict_error_iff] at hb
            rw [hpid] at hb
            injection hb
          · rw [← readIntFromDict_error_iff] at hb
            rw [htid] at hb
            injection hb
  · intro hdur n1 n2 n3 hts hpid htid
    simp [TimingDataItem.parse, hts, hpid, htid, hdur, Except.bind, bind, Except.instMonad]
  · intro s n hl hp
    rw [readIntFromDict_ok_iff]
    exact ⟨.jstr s, hl, by simpa [pyToInt] using hp⟩

/-- C8 witness: a dictionary with a string timestamp `"123"` and no `dur`
parses with time 123 and duration 0, while dropping its `tid` field makes the
parse fatal. -/
theorem event_required_fields_witness :
    TimingDataItem.parse "f" "T" "x" "P"
        [("ts", .jstr "123"), ("pid", .jint 1), ("tid", .jint 2)]
      = .ok ⟨"f", "T", "x", "P", [("ts", .jstr "123"), ("pid", .jint 1), ("tid", .jint 2)],
             123, 1, 2, 0⟩
    ∧ TimingDataItem.parse "f" "T" "x" "P" [("ts", .jstr "123"), ("pid", .jint 1)]
      = .error () := by
  constructor
  · exact (event_required_fields "f" "T" "x" "P"
      [("ts", .jstr "123"), ("pid", .jint 1), ("tid", .jint 2)]).2.1 rfl 123 1 2 rfl rfl rfl
  · exact (event_required_fields "f" "T" "x" "P"
      [("ts", .jstr "123"), ("pid", .jint 1)]).1 (Or.inr (Or.inr (Or.inl rfl)))

theorem hasKey_iff_mem (d : List (String × JVal)) (k : String) :
    hasKey d k = true ↔ k ∈ objKeys d := by
  induction d with
  | nil => simp [hasKey, objKeys]
  | cons kv rest ih =>
    simp only [hasKey, objKeys, List.map_cons, List.mem_cons, Bool.or_eq_true,
      decide_eq_true_eq]
    rw [show (objKeys rest = rest.map fun p => p.1) from rfl] at ih
    constructor
    · rintro (h | h)
      · exact Or.inl h.symm
      · exact Or.inr (ih.mp h)
    · rintro (h | h)
      · exact Or.inl h.symm
      · exact Or.inr (ih.mpr h)

theorem two_keys_length (data : List (String × JVal)) (hnd : (objKeys data).Nodup)
    (hb : hasKey data keyBeginningOfTime = true) (ht : hasKey data keyTraceEvents = true) :
    data.length ≠ 2 ↔
      ∃ k ∈ objKeys data, k ≠ keyBeginningOfTime ∧ k ≠ keyTraceEvents := by
  have hbm := (hasKey_iff_mem data keyBeginningOfTime).mp hb
  have htm := (hasKey_iff_mem data keyTraceEvents).mp ht
  have hne : keyBeginningOfTime ≠ keyTraceEvents := by decide
  have hlen : (objKeys data).length = data.length := List.length_map _ _
  constructor
  · intro h2
    by_contra hno
    push_neg at hno
    have hsub : objKeys data ⊆ [keyBeginningOfTime, keyTraceEvents] := by
      intro k hk
      rcases em (k = keyBeginningOfTime) with h | h
      · simp [h]
      · have := hno k hk h
        simp [this]
    have hle : (objKeys data).length ≤ 2 := by
      have := (List.subperm_of_subset hnd hsub).length_le
      simpa using this
    have hge : 2 ≤ (objKeys data).length := by
      rcases hk : objKeys data with _ | ⟨x, _ | ⟨y, rest⟩⟩
      · rw [hk] at hbm
        simp at hbm
      · rw [hk] at hbm htm
        simp at hbm htm
        exact absurd (hbm ▸ htm ▸ rfl) hne
      · simp [hk]
    omega
  · rintro ⟨k, hk, hk1, hk2⟩ h2
    rw [← hlen] at h2
    rcases List.length_eq_two.mp h2 with ⟨a, b, hab⟩
    rw [hab] at hbm htm hk
    simp at hbm htm hk
    rcases hbm with h | h <;> rcases htm with h' | h' <;> rcases hk with h'' | h'' <;>
      first
        | exact hne (h ▸ h' ▸ rfl)
        | exact hk1 (h'' ▸ h ▸ rfl)
        | exact hk2 (h'' ▸ h' ▸ rfl)

theorem lookupKey_isSome_of_hasKey (d : List (String × JVal)) (k : String)
    (h : hasKey d k = true) : ∃ v, lookupKey d k = some v := by
  induction d with
  | nil => simp [hasKey] at h
  | cons kv rest ih =>
    rcases em (kv.1 = k) with he | he
    · exact ⟨kv.2, by simp [lookupKey, he]⟩
    · have h' : hasKey rest k = true := by
        simp only [hasKey, Bool.or_eq_true, decide_eq_true_eq] at h
        rcases h with h | h
        · exact absurd h he
        · exact h
      rcases ih h' with ⟨v, hv⟩
      exact ⟨v, by simp [lookupKey, he, hv]⟩

theorem parseModel_skip1 (f t a p : String) (data : List (String × JVal))
    (hb : hasKey data keyBeginningOfTime = false) :
    TimingData.parseModel f t a p (.jsonObj data) = .ok none := by
  simp [TimingData.parseModel, hb]

theorem parseModel_skip2 (f t a p : String) (data : List (String × JVal))
    (hb : hasKey data keyBeginningOfTime = true) (ht : hasKey data keyTraceEvents = false) :
    TimingData.parseModel f t a p (.jsonObj data) = .ok none := by
  simp [TimingData.parseModel, hb, ht]

theorem parseModel_skip3 (f t a p : String) (data : List (String × JVal))
    (hb : hasKey data keyBeginningOfTime = true) (ht : hasKey data keyTraceEvents = true)
    (h2 : data.length ≠ 2) :
    TimingData.parseModel f t a p (.jsonObj data) = .ok none := by
  simp [TimingData.parseModel, hb, ht, h2]

theorem parseModel_main (f t a p : String) (data : List (String × JVal))
    (hb : hasKey data keyBeginningOfTime = true) (ht : hasKey data keyTraceEvents = true)
    (h2 : data.length = 2) :
    TimingData.parseModel f t a p (.jsonObj data) =
      match lookupKey data keyTraceEvents with
      | some (.jarr evs) => (parseItems f t a p evs).map some
      | _ => .error () := by
  simp [TimingData.parseModel, hb, ht, h2]

/-- C7: over inputs whose decoded object has unique keys and an array-valued
`traceEvents` entry, `TimingData.parse` returns the skip-with-warning failure
exactly when the bytes are undecodable, the JSON is malformed, a required key
is missing, or an extra key is present; and when no skip condition holds and
every event parses, it succeeds holding exactly the parsed events. -/
theorem trace_parse_skip_iff (f t a p : String) (input : ParseInput)
    (hnd : nodupKeys input) (hwf : wfTraceEvents input) :
    (TimingData.parseModel f t a p input = .ok none ↔ skipCond input)
    ∧ (∀ data evs items, input = .jsonObj data →
        lookupKey data keyTraceEvents = some (.jarr evs) →
        parseItems f t a p evs = .ok items →
        ¬ skipCond input →
        TimingData.parseModel f t a p input = .ok (some items)) := by
  constructor
  · rcases input with _ | _ | data
    · simp [TimingData.parseModel, skipCond]
    · simp [TimingData.parseModel, skipCond]
    · simp only [nodupKeys] at hnd
      simp only [wfTraceEvents] at hwf
      rcases hb : hasKey data keyBeginningOfTime with _ | _
      · rw [parseModel_skip1 f t a p data hb]
        simp only [skipCond]
        exact ⟨fun _ => Or.inl hb, fun _ => trivial⟩
      · rcases ht : hasKey data keyTraceEvents with _ | _
        · rw [parseModel_skip2 f t a p data hb ht]
          simp only [skipCond]
          exact ⟨fun _ => Or.inr (Or.inl ht), fun _ => trivial⟩
        · rcases em (data.length = 2) with h2 | h2
          · rw [parseModel_main f t a p data hb ht h2]
            have hnex : ¬ ∃ k ∈ objKeys data, k ≠ keyBeginningOfTime ∧ k ≠ keyTraceEvents :=
              fun hx => (two_keys_length data hnd hb ht).mpr hx h2
            constructor
            · intro hres
              exfalso
              rcases lookupKey_isSome_of_hasKey data keyTraceEvents ht with ⟨v, hv⟩
              rcases hwf v hv with ⟨evs, rfl⟩
              rw [hv] at hres
              rcases hpe : parseItems f t a p evs with u | items <;>
                simp [hpe, Except.map] at hres
            · intro hsk
              exfalso
              rcases hsk with h | h | h
              · rw [hb] at h
                exact Bool.noConfusion h
              · rw [ht] at h
                exact Bool.noConfusion h
              · exact hnex h
          · rw [parseModel_skip3 f t a p data hb ht h2]
            have hex := (two_keys_length data hnd hb ht).mp h2
            simp only [skipCond]
            exact ⟨fun _ => Or.inr (Or.inr hex), fun _ => trivial⟩
  · intro data evs items hin hl hpe hns
    subst hin
    simp only [skipCond, not_or] at hns
    obtain ⟨hb, ht, hnex⟩ := hns
    have hb' : hasKey data keyBeginningOfTime = true := by
      rcases h : hasKey data keyBeginningOfTime with _ | _
      · exact absurd h hb
      · rfl
    have ht' : hasKey data keyTraceEvents = true := by
      rcases h : hasKey data keyTraceEvents with _ | _
      · exact absurd h ht
      · rfl
    simp only [nodupKeys] at hnd
    have h2 : data.length = 2 := by
      by_contra h2
      exact hnex ((two_keys_length data hnd hb' ht').mp h2)
    rw [parseModel_main f t a p data hb' ht' h2, hl]
    simp [hpe, Except.map]

/-- C7 witness: a single-key object is skipped, and a well-formed two-key
object parses successfully into its one event. -/
theorem trace_parse_skip_iff_witness :
    TimingData.parseModel "f" "T" "x" "P" (.jsonObj [(keyTraceEvents, .jarr [])]) = .ok none
    ∧ TimingData.parseModel "f" "T" "x" "P"
        (.jsonObj [(keyBeginningOfTime, .jint 0), (keyTraceEvents, .jarr [.jobj sourceDictB])])
      = .ok (some [⟨"f", "T", "x", "P", sourceDictB, 5, 3, 4, 0⟩]) := by
  constructor
  · exact (trace_parse_skip_iff "f" "T" "x" "P" (.jsonObj [(keyTraceEvents, .jarr [])])
      (by simp [nodupKeys, objKeys]) (by
        intro v hv
        have hv2 : v = JVal.jarr [] := by
          simpa [lookupKey] using hv.symm
        exact ⟨[], hv2⟩)).1.mpr (Or.inl rfl)
  · exact (trace_parse_skip_iff "f" "T" "x" "P"
      (.jsonObj [(keyBeginningOfTime, .jint 0), (keyTraceEvents, .jarr [.jobj sourceDictB])])
      (by simp [nodupKeys, objKeys, keyBeginningOfTime, keyTraceEvents])
      (by
        intro v hv
        have hv2 : v = JVal.jarr [.jobj sourceDictB] := by
          simpa [lookupKey, keyBeginningOfTime, keyTraceEvents] using hv.symm
        exact ⟨[.jobj sourceDictB], hv2⟩)).2
      _ [.jobj sourceDictB] _ rfl rfl rfl (by
        simp [skipCond, hasKey, objKeys, keyBeginningOfTime, keyTraceEvents])

theorem calcLoop_append_nosent (offset : Int) (pre l : List TimingDataItem)
    (hpre : ∀ it ∈ pre, it.is_total_execute_compiler = false) :
    calcLoop offset (pre ++ l) = calcLoop offset l := by
  induction pre with
  | nil => rfl
  | cons x rest ih =>
    have hx := hpre x (List.mem_cons_self x rest)
    simp only [List.cons_append, calcLoop, hx]
    simp only [Bool.false_eq_true, if_false]
    exact ih (fun it hit => hpre it (List.mem_cons_of_mem x hit))

theorem calcLoop_error_of_sentinel (l : List TimingDataItem) :
    ∀ offset : Int, offset ≠ 0 →
      (∃ it ∈ l, it.is_total_execute_compiler = true) → calcLoop offset l = .error () := by
  induction l with
  | nil =>
    intro offset hoff hex
    rcases hex with ⟨it, hit, _⟩
    exact absurd hit (List.not_mem_nil it)
  | cons x rest ih =>
    intro offset hoff hex
    rcases hs : x.is_total_execute_compiler with _ | _
    · rcases hex with ⟨it, hit, hsent⟩
      rcases List.mem_cons.mp hit with h | h
      · rw [← h] at hs
        rw [hs] at hsent
        exact Bool.noConfusion hsent
      · simp only [calcLoop, hs]
        simp only [Bool.false_eq_true, if_false]
        exact ih offset hoff ⟨it, h, hsent⟩
    · simp only [calcLoop, hs, if_true, hoff, ne_eq, not_false_eq_true, if_pos]

/-- C2 counterexample: a source holding two `Total ExecuteCompiler` sentinels is
folded in by `TimingData.join` without aborting — the merge completes normally
(the multiple-sentinel abort lives in `calculate_total_time`, which `join` does
not call). -/
theorem join_two_sentinels_not_fatal :
    (traceTwoSentinels.items.filter (fun it => it.is_total_execute_compiler)).length = 2
    ∧ TimingData.joinRun emptyAcc traceTwoSentinels = .ok (emptyAcc.join traceTwoSentinels)
    ∧ TimingData.joinRun emptyAcc traceTwoSentinels ≠ .error () := by
  refine ⟨rfl, rfl, ?_⟩
  intro h
  exact Except.noConfusion h

/-- C2 (amended): folding a source with more than one `Total ExecuteCompiler`
sentinel through `TimingData.join` never aborts (join silently keeps the last
sentinel's total); the ambiguous-total fatality is instead raised by
`TimingData.calculate_total_time`, which — when the stored offset is still 0 —
aborts the run upon meeting a further sentinel after a sentinel with non-zero
total time. -/
theorem ambiguous_total_fatal_in_calculate (acc src td : TimingData)
    (pre rest : List TimingDataItem) (it1 : TimingDataItem)
    (hoff : td.timeOffset = 0)
    (hitems : td.items = pre ++ it1 :: rest)
    (hpre : ∀ it ∈ pre, it.is_total_execute_compiler = false)
    (h1 : it1.is_total_execute_compiler = true)
    (hnz : it1.get_total_time ≠ 0)
    (h2 : ∃ it ∈ rest, it.is_total_execute_compiler = true) :
    TimingData.joinRun acc src = .ok (acc.join src)
    ∧ td.calculate_total_time = .error () := by
  refine ⟨rfl, ?_⟩
  unfold TimingData.calculate_total_time
  rw [if_pos hoff, hitems, calcLoop_append_nosent 0 pre (it1 :: rest) hpre]
  simp only [calcLoop, h1, if_true]
  rw [if_neg (by simp)]
  exact calcLoop_error_of_sentinel rest it1.get_total_time hnz h2

/-- C2 witness: on the concrete two-sentinel trace file (first sentinel total
110, second sentinel later), `calculate_total_time` is fatal while `join` is
not. -/
theorem ambiguous_total_fatal_in_calculate_witness :
    TimingData.joinRun emptyAcc traceTwoSentinels = .ok (emptyAcc.join traceTwoSentinels)
    ∧ traceTwoSentinels.calculate_total_time = .error () := by
  exact ambiguous_total_fatal_in_calculate emptyAcc traceTwoSentinels traceTwoSentinels
    [] [sentinelItemA2] sentinelItemA rfl rfl (fun it hit => absurd hit (List.not_mem_nil it))
    rfl (by decide) ⟨sentinelItemA2, List.mem_cons_self _ _, rfl⟩

theorem joinLoop_appended_time (offset : Int) (l : List TimingDataItem) :
    ∀ st : JoinState, ((joinLoop offset st l).appended.map (fun it => it.time))
      = st.appended.map (fun it => it.time) ++ l.map (fun it => it.time + offset) := by
  induction l with
  | nil =>
    intro st
    simp [joinLoop]
  | cons it rest ih =>
    intro st
    simp only [joinLoop]
    rw [ih]
    rcases hp : st.pid with _ | p <;> rcases ht : st.tid with _ | t <;>
      simp [hp, ht, List.map_append, List.append_assoc]

theorem joinLoop_lastTime_foldl (offset : Int) (l : List TimingDataItem) :
    ∀ st : JoinState, (joinLoop offset st l).lastTime
      = l.foldl (fun acc it => if it.is_total_execute_compiler then it.get_total_time else acc)
          st.lastTime := by
  induction l with
  | nil =>
    intro st
    simp [joinLoop]
  | cons it rest ih =>
    intro st
    simp only [joinLoop, List.foldl_cons]
    rw [ih]

theorem foldl_last_sentinel (l : List TimingDataItem) :
    ∀ a : Int,
      l.foldl (fun acc it => if it.is_total_execute_compiler then it.get_total_time else acc) a
      = match (l.filter (fun it => it.is_total_execute_compiler)).getLast? with
        | some it => it.get_total_time
        | none => a := by
  induction l with
  | nil =>
    intro a
    rfl
  | cons x rest ih =>
    intro a
    rcases hs : x.is_total_execute_compiler with _ | _
    · simp only [List.foldl_cons, hs, Bool.false_eq_true, if_false, List.filter_cons]
      rw [ih a]
    · have hfil : (x :: rest).filter (fun it => it.is_total_execute_compiler)
          = x :: rest.filter (fun it => it.is_total_execute_compiler) := by
        simp [List.filter_cons, hs]
      rw [List.foldl_cons, hfil]
      rw [if_pos hs]
      rw [ih x.get_total_time]
      rcases hfe : rest.filter (fun it => it.is_total_execute_compiler) with _ | ⟨y, ys⟩
      · rw [hfe]
        rfl
      · rw [hfe, List.getLast?_cons_cons]
        rcases hg : (y :: ys).getLast? with _ | it2
        · exact absurd (List.getLast?_eq_none_iff.mp hg) (by simp)
        · rfl

theorem join_items_time (td other : TimingData) :
    (td.join other).items.map (fun it => it.time)
      = td.items.map (fun it => it.time)
        ++ other.items.map (fun it => it.time + td.timeOffset) := by
  unfold TimingData.join
  simp only [List.map_append]
  rw [joinLoop_appended_time]
  simp

theorem join_timeOffset (td other : TimingData) :
    (td.join other).timeOffset = td.timeOffset + sentinelContribution other.items := by
  unfold TimingData.join sentinelContribution
  simp only
  rw [joinLoop_lastTime_foldl, foldl_last_sentinel]

theorem foldJoin_timeOffset (srcs : List TimingData) :
    ∀ acc : TimingData,
      (srcs.foldl TimingData.join acc).timeOffset = acc.timeOffset + offsetSum srcs := by
  induction srcs with
  | nil =>
    intro acc
    simp [offsetSum]
  | cons s ss ih =>
    intro acc
    simp only [List.foldl_cons]
    rw [ih, join_timeOffset]
    simp [offsetSum, Int.add_assoc]

theorem foldJoin_items_time (srcs : List TimingData) :
    ∀ acc : TimingData,
      (srcs.foldl TimingData.join acc).items.map (fun it => it.time)
        = acc.items.map (fun it => it.time) ++ timesFlat acc.timeOffset srcs := by
  induction srcs with
  | nil =>
    intro acc
    simp [timesFlat]
  | cons s ss ih =>
    intro acc
    simp only [List.foldl_cons, timesFlat]
    rw [ih, join_items_time, join_timeOffset]
    simp [List.append_assoc]

theorem timesFlat_append (xs ys : List TimingData) :
    ∀ offset : Int,
      timesFlat offset (xs ++ ys) = timesFlat offset xs ++ timesFlat (offset + offsetSum xs) ys := by
  induction xs with
  | nil =>
    intro offset
    simp [timesFlat, offsetSum]
  | cons x rest ih =>
    intro offset
    simp only [List.cons_append, timesFlat, List.append_eq]
    rw [ih]
    simp [offsetSum, List.append_assoc, Int.add_assoc]

/-- C3 (amended): folding trace files into an initially empty accumulator in
order, the events of the k-th source appear with their timestamps shifted by
the sum of the contributions of sources 1..k-1, where a source contributes the
end time `ts + dur` of its last `Total ExecuteCompiler` sentinel — not the
sentinel's duration alone — and 0 when it has no sentinel. -/
theorem merge_offset_shifts (p t pl a : String) (pre post : List TimingData) (src : TimingData) :
    ∃ before after : List Int,
      ((pre ++ src :: post).foldl TimingData.join (TimingData.mk0 p t pl a)).items.map
          (fun it => it.time)
        = before ++ src.items.map (fun it => it.time + offsetSum pre) ++ after := by
  refine ⟨timesFlat 0 pre, timesFlat (offsetSum pre + sentinelContribution src.items) post, ?_⟩
  rw [foldJoin_items_time, timesFlat_append]
  simp [TimingData.mk0, timesFlat, List.append_assoc]

/-- C3 counterexample: merging trace file A (one sentinel with timestamp 10 and
duration 100) and then trace file B shifts B's event at timestamp 5 to 115 —
by the sentinel's end time 110, not by its duration 100 as the claim states. -/
theorem merge_offset_counterexample :
    (List.foldl TimingData.join emptyAcc [traceA, traceB]).items.map (fun it => it.time)
      = [10, 115]
    ∧ (List.foldl TimingData.join emptyAcc [traceA, traceB]).items.map (fun it => it.time)
      ≠ [10, 5 + 100] := by
  constructor
  · rfl
  · intro h
    rw [show (List.foldl TimingData.join emptyAcc [traceA, traceB]).items.map
        (fun it => it.time) = [10, 115] from rfl] at h
    have h115 : (115 : Int) = 5 + 100 := by
      have := List.cons.injEq (10 : Int) [115] 10 [5 + 100] ▸ h
      injection h with h1 h2
      injection h2 with h3 h4
    omega

theorem mem_const_map {α β : Type} (y : β) (l : List α) (c : β)
    (h : y ∈ l.map (fun _ => c)) : y = c := by
  rcases List.mem_map.mp h with ⟨x, _, hx⟩
  exact hx.symm

theorem joinLoop_step_some (offset p t lt : Int) (app : List TimingDataItem)
    (it : TimingDataItem) (rest : List TimingDataItem) :
    joinLoop offset ⟨some p, some t, lt, app⟩ (it :: rest)
      = joinLoop offset ⟨some p, some t,
          (if it.is_total_execute_compiler then it.get_total_time else lt),
          app ++ [{ it with time := it.time + offset, pid := p, tid := t }]⟩ rest := rfl

theorem joinLoop_step_none (offset lt : Int) (app : List TimingDataItem)
    (it : TimingDataItem) (rest : List TimingDataItem) :
    joinLoop offset ⟨none, none, lt, app⟩ (it :: rest)
      = joinLoop offset ⟨some it.pid, some it.tid,
          (if it.is_total_execute_compiler then it.get_total_time else lt),
          app ++ [{ it with time := it.time + offset }]⟩ rest := rfl

theorem joinLoop_ids_some (offset p t : Int) (l : List TimingDataItem) :
    ∀ (lt : Int) (app : List TimingDataItem),
      ((joinLoop offset ⟨some p, some t, lt, app⟩ l).appended.map (fun it => it.pid)
        = app.map (fun it => it.pid) ++ l.map (fun _ => p))
      ∧ ((joinLoop offset ⟨some p, some t, lt, app⟩ l).appended.map (fun it => it.tid)
        = app.map (fun it => it.tid) ++ l.map (fun _ => t)) := by
  induction l with
  | nil =>
    intro lt app
    simp [joinLoop]
  | cons it rest ih =>
    intro lt app
    rw [joinLoop_step_some]
    constructor
    · rw [(ih _ _).1]
      simp [List.map_append, List.append_assoc]
    · rw [(ih _ _).2]
      simp [List.map_append, List.append_assoc]

theorem joinLoop_appended_ids_nonempty (offset : Int) (it : TimingDataItem)
    (rest : List TimingDataItem) :
    ((joinLoop offset ⟨none, none, 0, []⟩ (it :: rest)).appended.map (fun x => x.pid)
      = it.pid :: rest.map (fun _ => it.pid))
    ∧ ((joinLoop offset ⟨none, none, 0, []⟩ (it :: rest)).appended.map (fun x => x.tid)
      = it.tid :: rest.map (fun _ => it.tid)) := by
  rw [joinLoop_step_none]
  constructor
  · rw [(joinLoop_ids_some offset it.pid it.tid rest _ _).1]
    simp
  · rw [(joinLoop_ids_some offset it.pid it.tid rest _ _).2]
    simp

theorem join_unified (td other : TimingData) (h : unifiedIds td.items) :
    unifiedIds (td.join other).items
    ∧ headIds (td.join other).items
      = (headIds td.items).orElse (fun _ => headIds other.items) := by
  unfold TimingData.join
  rcases htd : td.items with _ | ⟨h0, tl⟩
  · rcases ho : other.items with _ | ⟨it, rest⟩
    · simp [joinLoop, unifiedIds, headIds]
    · have hst : (⟨(([] : List TimingDataItem).head?.map (fun h => h.pid)), (([] : List TimingDataItem).head?.map (fun h => h.tid)), 0, []⟩ : JoinState) = (⟨none, none, 0, []⟩ : JoinState) := rfl
      simp only [hst]
      set st := joinLoop td.timeOffset ⟨none, none, 0, []⟩ (it :: rest) with hstdef
      have hpid := (joinLoop_appended_ids_nonempty td.timeOffset it rest).1
      have htid := (joinLoop_appended_ids_nonempty td.timeOffset it rest).2
      rw [← hstdef] at hpid htid
      constructor
      · rcases hap : st.appended with _ | ⟨a0, arest⟩
        · simp [unifiedIds]
        · rw [hap] at hpid htid
          simp only [List.map_cons] at hpid htid
          have ha0p : a0.pid = it.pid := (List.cons.injEq _ _ _ _ ▸ hpid).1
          have ha0t : a0.tid = it.tid := (List.cons.injEq _ _ _ _ ▸ htid).1
          have harp : arest.map (fun x => x.pid) = rest.map (fun _ => it.pid) :=
            (List.cons.injEq _ _ _ _ ▸ hpid).2
          have hart : arest.map (fun x => x.tid) = rest.map (fun _ => it.tid) :=
            (List.cons.injEq _ _ _ _ ▸ htid).2
          simp only [unifiedIds, List.nil_append]
          intro x hx
          rcases List.mem_cons.mp hx with hxe | hxm
          · subst hxe
            exact ⟨rfl, rfl⟩
          · constructor
            · have : x.pid ∈ arest.map (fun x => x.pid) := List.mem_map.mpr ⟨x, hxm, rfl⟩
              rw [harp] at this
              rw [ha0p]
              exact mem_const_map _ _ _ this
            · have : x.tid ∈ arest.map (fun x => x.tid) := List.mem_map.mpr ⟨x, hxm, rfl⟩
              rw [hart] at this
              rw [ha0t]
              exact mem_const_map _ _ _ this
      · rcases hap : st.appended with _ | ⟨a0, arest⟩
        · rw [hap] at hpid
          simp at hpid
        · rw [hap] at hpid htid
          simp only [List.map_cons] at hpid htid
          have ha0p : a0.pid = it.pid := (List.cons.injEq _ _ _ _ ▸ hpid).1
          have ha0t : a0.tid = it.tid := (List.cons.injEq _ _ _ _ ▸ htid).1
          simp [headIds, ho, ha0p, ha0t]
  · have hst : (⟨((h0 :: tl).head?.map (fun h => h.pid)), ((h0 :: tl).head?.map (fun h => h.tid)), 0, []⟩ : JoinState) = (⟨some h0.pid, some h0.tid, 0, []⟩ : JoinState) := rfl
    simp only [hst]
    set st := joinLoop td.timeOffset ⟨some h0.pid, some h0.tid, 0, []⟩ other.items with hstdef
    have hpid := (joinLoop_ids_some td.timeOffset h0.pid h0.tid other.items 0 []).1
    have htid := (joinLoop_ids_some td.timeOffset h0.pid h0.tid other.items 0 []).2
    rw [← hstdef] at hpid htid
    simp only [List.map_nil, List.nil_append] at hpid htid
    constructor
    · simp only [unifiedIds, List.cons_append]
      intro x hx
      rw [htd] at h
      simp only [unifiedIds] at h
      rcases List.mem_cons.mp hx with hxe | hxm
      · subst hxe
        exact ⟨rfl, rfl⟩
      · rcases List.mem_append.mp hxm with hxl | hxr
        · exact h x (List.mem_cons_of_mem h0 hxl)
        · constructor
          · have : x.pid ∈ st.appended.map (fun it => it.pid) := List.mem_map.mpr ⟨x, hxr, rfl⟩
            rw [hpid] at this
            exact mem_const_map _ _ _ this
          · have : x.tid ∈ st.appended.map (fun it => it.tid) := List.mem_map.mpr ⟨x, hxr, rfl⟩
            rw [htid] at this
            exact mem_const_map _ _ _ this
    · simp [headIds]

theorem headIds_append (a b : List TimingDataItem) :
    headIds (a ++ b) = (headIds a).orElse (fun _ => headIds b) := by
  rcases a with _ | ⟨x, xs⟩
  · rfl
  · rfl

theorem orElse_assoc3 (x y z : Option (Int × Int)) :
    (x.orElse (fun _ => y)).orElse (fun _ => z)
      = x.orElse (fun _ => y.orElse (fun _ => z)) := by
  cases x <;> rfl

theorem foldJoin_unified (srcs : List TimingData) :
    ∀ acc : TimingData, unifiedIds acc.items →
      unifiedIds ((srcs.foldl TimingData.join acc).items)
      ∧ headIds ((srcs.foldl TimingData.join acc).items)
        = (headIds acc.items).orElse
            (fun _ => headIds ((srcs.map (fun s => s.items)).flatten)) := by
  induction srcs with
  | nil =>
    intro acc hacc
    refine ⟨hacc, ?_⟩
    simp only [List.foldl_nil, List.map_nil]
    cases headIds acc.items <;> rfl
  | cons s ss ih =>
    intro acc hacc
    simp only [List.foldl_cons, List.map_cons, List.flatten_cons]
    rcases join_unified acc s hacc with ⟨hu, hh⟩
    rcases ih (acc.join s) hu with ⟨hu2, hh2⟩
    refine ⟨hu2, ?_⟩
    rw [hh2, hh, headIds_append, orElse_assoc3]

/-- C5: after folding any list of trace files into an initially empty
accumulator, every event carries the single pid/tid pair of the first event
merged — the head of the merged list shares its ids with the first event of
the first nonempty source, and `unifiedIds` states that every merged event
carries the head's pid and tid. -/
theorem merge_unifies_ids (p t pl a : String) (srcs : List TimingData) :
    unifiedIds ((srcs.foldl TimingData.join (TimingData.mk0 p t pl a)).items)
    ∧ headIds ((srcs.foldl TimingData.join (TimingData.mk0 p t pl a)).items)
      = headIds ((srcs.map (fun s => s.items)).flatten) := by
  rcases foldJoin_unified srcs (TimingData.mk0 p t pl a)
      (by simp [TimingData.mk0, unifiedIds]) with ⟨h1, h2⟩
  refine ⟨h1, ?_⟩
  rw [h2]
  rfl

theorem lookupKey_dictSet_same (d : List (String × JVal)) (k : String) (v : JVal) :
    lookupKey (dictSet d k v) k = some v := by
  induction d with
  | nil => simp [dictSet, lookupKey]
  | cons kv rest ih =>
    rcases em (kv.1 = k) with he | he
    · simp [dictSet, lookupKey, he]
    · simp [dictSet, lookupKey, he, ih]

theorem lookupKey_dictSet_other (d : List (String × JVal)) (k k' : String) (v : JVal)
    (h : k ≠ k') : lookupKey (dictSet d k v) k' = lookupKey d k' := by
  induction d with
  | nil => simp [dictSet, lookupKey, h]
  | cons kv rest ih =>
    rcases em (kv.1 = k) with he | he
    · simp [dictSet, lookupKey, he, h]
    · simp [dictSet, lookupKey, he, ih]

/-- C1 (amended): serializing a merged accumulator emits a single-key object —
only `traceEvents`, with `beginningOfTime` omitted — so re-parsing the written
text fails `parse`'s strict two-key schema check and the file is skipped; the
serialized event dictionaries themselves do carry each event's current
(merge-rewritten) `ts`/`pid`/`tid`, the original `dur` entry, and the name with
the ` - filename` suffix exactly on `ExecuteCompiler` events. -/
theorem write_single_key_reparse_fails (f t a p : String) (td : TimingData)
    (_h : td.items ≠ []) :
    TimingData.parseModel f t a p (.jsonObj td.writeFields) = .ok none
    ∧ hasKey td.writeFields keyBeginningOfTime = false
    ∧ ∀ it ∈ td.items,
        lookupKey it.jsonDict "ts" = some (.jint it.time)
        ∧ lookupKey it.jsonDict "pid" = some (.jint it.pid)
        ∧ lookupKey it.jsonDict "tid" = some (.jint it.tid)
        ∧ (it.is_execute_compiler = true →
            lookupKey it.jsonDict "name" = some (.jstr (it.getName ++ " - " ++ it.filename)))
        ∧ (it.is_execute_compiler = false →
            lookupKey it.jsonDict "name" = lookupKey it.dict "name")
        ∧ lookupKey it.jsonDict "dur" = lookupKey it.dict "dur" := by
  have hbk : hasKey td.writeFields keyBeginningOfTime = false := by
    simp [TimingData.writeFields, hasKey, keyTraceEvents, keyBeginningOfTime]
  refine ⟨parseModel_skip1 f t a p td.writeFields hbk, hbk, ?_⟩
  intro it _
  unfold TimingDataItem.jsonDict
  rcases hec : it.is_execute_compiler with _ | _
  · simp only [Bool.false_eq_true, if_false]
    refine ⟨?_, ?_, ?_, ?_, ?_, ?_⟩
    · rw [lookupKey_dictSet_other _ _ _ _ (by decide),
        lookupKey_dictSet_other _ _ _ _ (by decide), lookupKey_dictSet_same]
    · rw [lookupKey_dictSet_other _ _ _ _ (by decide), lookupKey_dictSet_same]
    · rw [lookupKey_dictSet_same]
    · intro hx
      exact absurd hx (by simp)
    · intro _
      rw [lookupKey_dictSet_other _ _ _ _ (by decide),
        lookupKey_dictSet_other _ _ _ _ (by decide),
        lookupKey_dictSet_other _ _ _ _ (by decide)]
    · rw [lookupKey_dictSet_other _ _ _ _ (by decide),
        lookupKey_dictSet_other _ _ _ _ (by decide),
        lookupKey_dictSet_other _ _ _ _ (by decide)]
  · simp only [if_true]
    refine ⟨?_, ?_, ?_, ?_, ?_, ?_⟩
    · rw [lookupKey_dictSet_other _ _ _ _ (by decide),
        lookupKey_dictSet_other _ _ _ _ (by decide), lookupKey_dictSet_same]
    · rw [lookupKey_dictSet_other _ _ _ _ (by decide), lookupKey_dictSet_same]
    · rw [lookupKey_dictSet_same]
    · intro _
      rw [lookupKey_dictSet_other _ _ _ _ (by decide),
        lookupKey_dictSet_other _ _ _ _ (by decide),
        lookupKey_dictSet_other _ _ _ _ (by decide), lookupKey_dictSet_same]
    · intro hx
      exact Bool.noConfusion hx
    · rw [lookupKey_dictSet_other _ _ _ _ (by decide),
        lookupKey_dictSet_other _ _ _ _ (by decide),
        lookupKey_dictSet_other _ _ _ _ (by decide),
        lookupKey_dictSet_other _ _ _ _ (by decide)]

/-- C1 witness: the amended statement at the concrete merged accumulator built
by joining the `ExecuteCompiler` trace file into the empty accumulator. -/
theorem write_single_key_reparse_fails_witness :
    TimingData.parseModel "f" "T" "x" "P" (.jsonObj (emptyAcc.join traceEC).writeFields)
      = .ok none := by
  exact (write_single_key_reparse_fails "f" "T" "x" "P" (emptyAcc.join traceEC)
    (by
      intro hx
      have hlen : (emptyAcc.join traceEC).items.length = 1 := rfl
      rw [hx] at hlen
      exact absurd hlen (by decide))).1

/-- C1 counterexample: writing the merged accumulator built from the
`ExecuteCompiler` trace file produces text whose re-parse does not succeed —
`parse` skips it (`.ok none`), because the written object lacks the
`beginningOfTime` key; so serialize-then-reparse does not round-trip. -/
theorem write_reparse_roundtrip_fails :
    hasKey (emptyAcc.join traceEC).writeFields keyBeginningOfTime = false
    ∧ TimingData.parseModel "f" "T" "x" "P" (.jsonObj (emptyAcc.join traceEC).writeFields)
      = .ok none
    ∧ TimingData.parseModel "f" "T" "x" "P" (.jsonObj (emptyAcc.join traceEC).writeFields)
        ≠ .ok (some (emptyAcc.join traceEC).items) := by
  refine ⟨rfl, rfl, ?_⟩
  intro hcontra
  rw [show TimingData.parseModel "f" "T" "x" "P" (.jsonObj (emptyAcc.join traceEC).writeFields)
      = .ok none from rfl] at hcontra
  injection hcontra with h1
  exact Option.noConfusion h1

theorem takeWhile_notSlash (b : List Char) :
    ∀ a : List Char, (∀ c ∈ a, c ≠ '/') →
      (a ++ '/' :: b).takeWhile (fun c => c ≠ '/') = a := by
  intro a
  induction a with
  | nil =>
    intro _
    simp [List.takeWhile_cons]
  | cons x xs ih =>
    intro ha
    have hx : x ≠ '/' := ha x (List.mem_cons_self x xs)
    simp only [List.cons_append, List.takeWhile_cons]
    rw [if_pos (by simpa using hx)]
    rw [ih (fun c hc => ha c (List.mem_cons_of_mem x hc))]

theorem dropWhile_notSlash (b : List Char) :
    ∀ a : List Char, (∀ c ∈ a, c ≠ '/') →
      (a ++ '/' :: b).dropWhile (fun c => c ≠ '/') = '/' :: b := by
  intro a
  induction a with
  | nil =>
    intro _
    simp [List.dropWhile_cons]
  | cons x xs ih =>
    intro ha
    have hx : x ≠ '/' := ha x (List.mem_cons_self x xs)
    simp only [List.cons_append, List.dropWhile_cons]
    rw [if_pos (by simpa using hx)]
    rw [ih (fun c hc => ha c (List.mem_cons_of_mem x hc))]

theorem rsplitSlash_append (p comp : List Char) (hc : ∀ c ∈ comp, c ≠ '/') :
    rsplitSlash (p ++ '/' :: comp) = (p ++ ['/'], comp) := by
  unfold rsplitSlash
  have hrev : (p ++ '/' :: comp).reverse = comp.reverse ++ '/' :: p.reverse := by
    simp
  rw [hrev]
  rw [takeWhile_notSlash p.reverse comp.reverse (fun c hc' => hc c (List.mem_reverse.mp hc'))]
  rw [dropWhile_notSlash p.reverse comp.reverse (fun c hc' => hc c (List.mem_reverse.mp hc'))]
  simp

theorem posixSplit_snd (p comp : List Char) (hc : ∀ c ∈ comp, c ≠ '/') :
    (posixSplit (p ++ '/' :: comp)).2 = comp := by
  unfold posixSplit
  rw [rsplitSlash_append p comp hc]

theorem rstripSlash_tail (a R : List Char) (hR : R ≠ []) (hRs : ∀ c ∈ R, c ≠ '/') :
    rstripSlash ((a ++ '/' :: R) ++ ['/']) = a ++ '/' :: R := by
  rcases hrev : R.reverse with _ | ⟨r, rs⟩
  · exact absurd (by simpa using congrArg List.reverse hrev) hR
  have hr : r ∈ R := by
    rw [← List.mem_reverse, hrev]
    exact List.mem_cons_self r rs
  have hrne : r ≠ '/' := hRs r hr
  unfold rstripSlash
  rw [if_pos (by
    refine List.any_eq_true.mpr ⟨r, ?_, by simpa using hrne⟩
    simp [hr])]
  have hrv : ((a ++ '/' :: R) ++ ['/']).reverse = '/' :: r :: (rs ++ '/' :: a.reverse) := by
    simp [hrev]
  rw [hrv]
  rw [List.dropWhile_cons]
  rw [if_pos (by simp)]
  rw [List.dropWhile_cons]
  rw [if_neg (by simpa using hrne)]
  have hRv : R = rs.reverse ++ [r] := by
    have := congrArg List.reverse hrev
    simpa using this
  simp [hRv]

theorem posixSplit_step (a R comp : List Char) (hR : R ≠ []) (hRs : ∀ c ∈ R, c ≠ '/')
    (hcomp : ∀ c ∈ comp, c ≠ '/') :
    posixSplit ((a ++ '/' :: R) ++ '/' :: comp) = (a ++ '/' :: R, comp) := by
  unfold posixSplit
  rw [rsplitSlash_append (a ++ '/' :: R) comp hcomp]
  simp only
  rw [rstripSlash_tail a R hR hRs]

theorem classify_peel (A T obj arch file : List Char)
    (hT0 : T ≠ []) (hTc : ∀ c ∈ T, c ≠ '/')
    (hobj0 : obj ≠ []) (hobjc : ∀ c ∈ obj, c ≠ '/')
    (harch0 : arch ≠ []) (harchc : ∀ c ∈ arch, c ≠ '/')
    (hfilec : ∀ c ∈ file, c ≠ '/') :
    target_and_platform_and_arch_from_path
        (A ++ '/' :: (T ++ '/' :: (obj ++ '/' :: (arch ++ '/' :: file))))
      = if buildSuffix.isSuffixOf T then
          some (T.take (T.length - buildSuffix.length),
                (posixSplit (rstripSlash (A ++ ['/']))).2, arch)
        else if T = sphFolder then some (T, "-".data, "-".data)
        else none := by
  have e1 : A ++ '/' :: (T ++ '/' :: (obj ++ '/' :: (arch ++ '/' :: file)))
      = ((A ++ '/' :: (T ++ '/' :: obj)) ++ '/' :: arch) ++ '/' :: file := by
    simp
  have h1 := posixSplit_step (A ++ '/' :: (T ++ '/' :: obj)) arch file harch0 harchc hfilec
  have e2 : A ++ '/' :: (T ++ '/' :: obj) = (A ++ '/' :: T) ++ '/' :: obj := by
    simp
  have h2 := posixSplit_step (A ++ '/' :: T) obj arch hobj0 hobjc harchc
  have h3 := posixSplit_step A T obj hT0 hTc hobjc
  have h4 : posixSplit (A ++ '/' :: T) = (rstripSlash (A ++ ['/']), T) := by
    unfold posixSplit
    rw [rsplitSlash_append A T hTc]
  unfold target_and_platform_and_arch_from_path
  rw [e1, h1]
  simp only
  rw [e2] at h1 ⊢
  rw [h2]
  simp only
  rw [h3]
  simp only
  rw [h4]

/-- C6: the path classifier is a pure directory-grammar walk: a path of shape
`rest/Platform/Target.build/ObjDir/arch/file` classifies to
`(Target, Platform, arch)` with the `.build` suffix stripped; a path whose
great-grandparent directory is `SharedPrecompiledHeaders` classifies to
`(SharedPrecompiledHeaders, "-", "-")`; and a path whose great-grandparent
neither ends in `.build` nor equals that folder name is unclassifiable
(`none`).  No I/O is involved: the function is pure string logic. -/
theorem classifier_shapes (rest platform tgt obj arch file t : List Char)
    (hplat0 : platform ≠ []) (hplatc : ∀ c ∈ platform, c ≠ '/')
    (htgtc : ∀ c ∈ tgt, c ≠ '/')
    (hobj0 : obj ≠ []) (hobjc : ∀ c ∈ obj, c ≠ '/')
    (harch0 : arch ≠ []) (harchc : ∀ c ∈ arch, c ≠ '/')
    (hfilec : ∀ c ∈ file, c ≠ '/')
    (ht0 : t ≠ []) (htc : ∀ c ∈ t, c ≠ '/')
    (htb : buildSuffix.isSuffixOf t = false) (hts : t ≠ sphFolder) :
    target_and_platform_and_arch_from_path
        ((rest ++ '/' :: platform)
          ++ '/' :: ((tgt ++ buildSuffix) ++ '/' :: (obj ++ '/' :: (arch ++ '/' :: file))))
      = some (tgt, platform, arch)
    ∧ target_and_platform_and_arch_from_path
        (rest ++ '/' :: (sphFolder ++ '/' :: (obj ++ '/' :: (arch ++ '/' :: file))))
      = some (sphFolder, "-".data, "-".data)
    ∧ target_and_platform_and_arch_from_path
        (rest ++ '/' :: (t ++ '/' :: (obj ++ '/' :: (arch ++ '/' :: file))))
      = none := by
  have hbs : ∀ c ∈ buildSuffix, c ≠ '/' := by decide
  refine ⟨?_, ?_, ?_⟩
  · have hT0 : tgt ++ buildSuffix ≠ [] := by
      intro hx
      rcases List.append_eq_nil.mp hx with ⟨_, hb⟩
      exact absurd hb (by decide)
    have hTc : ∀ c ∈ tgt ++ buildSuffix, c ≠ '/' := by
      intro c hc
      rcases List.mem_append.mp hc with h | h
      · exact htgtc c h
      · exact hbs c h
    rw [classify_peel (rest ++ '/' :: platform) (tgt ++ buildSuffix) obj arch file
      hT0 hTc hobj0 hobjc harch0 harchc hfilec]
    rw [if_pos (List.isSuffixOf_iff_suffix.mpr (List.suffix_append tgt buildSuffix))]
    rw [List.length_append, Nat.add_sub_cancel, List.take_left]
    rw [rstripSlash_tail rest platform hplat0 hplatc]
    rw [posixSplit_snd rest platform hplatc]
  · have hT0 : sphFolder ≠ [] := by decide
    have hTc : ∀ c ∈ sphFolder, c ≠ '/' := by decide
    rw [classify_peel rest sphFolder obj arch file hT0 hTc hobj0 hobjc harch0 harchc hfilec]
    rw [if_neg (by decide), if_pos rfl]
  · rw [classify_peel rest t obj arch file ht0 htc hobj0 hobjc harch0 harchc hfilec]
    rw [if_neg (by simp [htb]), if_neg hts]

/-- C6 witness: the three shapes at concrete paths. -/
theorem classifier_shapes_witness :
    target_and_platform_and_arch_from_path
        "/Users/me/DD/MacOSX/Core.build/Objects-normal/x86_64/file.json".data
      = some ("Core".data, "MacOSX".data, "x86_64".data)
    ∧ target_and_platform_and_arch_from_path
        "/Users/me/DD/SharedPrecompiledHeaders/Objects-normal/x86_64/file.json".data
      = some ("SharedPrecompiledHeaders".data, "-".data, "-".data)
    ∧ target_and_platform_and_arch_from_path
        "/Users/me/DD/Other/Objects-normal/x86_64/file.json".data
      = none := by
  have h := classifier_shapes "/Users/me/DD".data "MacOSX".data "Core".data
    "Objects-normal".data "x86_64".data "file.json".data "Other".data
    (by decide) (by decide) (by decide) (by decide) (by decide) (by decide)
    (by decide) (by decide) (by decide) (by decide) (by decide) (by decide)
  refine ⟨?_, ?_, ?_⟩
  · rw [show "/Users/me/DD/MacOSX/Core.build/Objects-normal/x86_64/file.json".data
        = (("/Users/me/DD".data ++ '/' :: "MacOSX".data)
            ++ '/' :: (("Core".data ++ buildSuffix)
              ++ '/' :: ("Objects-normal".data
                ++ '/' :: ("x86_64".data ++ '/' :: "file.json".data)))) from by decide]
    exact h.1
  · rw [show "/Users/me/DD/SharedPrecompiledHeaders/Objects-normal/x86_64/file.json".data
        = ("/Users/me/DD".data
            ++ '/' :: (sphFolder
              ++ '/' :: ("Objects-normal".data
                ++ '/' :: ("x86_64".data ++ '/' :: "file.json".data)))) from by decide]
    exact h.2.1
  · rw [show "/Users/me/DD/Other/Objects-normal/x86_64/file.json".data
        = ("/Users/me/DD".data
            ++ '/' :: ("Other".data
              ++ '/' :: ("Objects-normal".data
                ++ '/' :: ("x86_64".data ++ '/' :: "file.json".data)))) from by decide]
    exact h.2.2
